import Mathlib

/-!
Verification of the `steamer` shortcut-generation tool (`src/main.rs`).

The development shallowly embeds the program: pure helpers (`should_skip`,
`parse_app_manifest`, `parse_library_folders`, the desktop-entry template)
are translated into Lean functions over `String`/`List Char`; the
filesystem-facing orchestrator (`main`) becomes explicit state passing over
a directory state `String → Option String` (filename to byte content),
with a `World` record describing the read-only inputs (the library
configuration file, each library's `steamapps` listing, the icon cache).
Rust string predicates (`starts_with`, `ends_with`, `contains`) are
modelled on the character-list level; the regex searches of the parser are
modelled by an equivalent leftmost-match greedy scanner.
-/

namespace Steamer

/-- Model of Rust `str::starts_with`: the pattern's characters are a prefix
of the string's characters. -/
def strStartsWith (s pat : String) : Bool :=
  pat.toList.isPrefixOf s.toList

/-- Model of Rust `str::ends_with`: the pattern's characters are a suffix
of the string's characters. -/
def strEndsWith (s pat : String) : Bool :=
  pat.toList.isSuffixOf s.toList

/-- Model of Rust `str::contains` with a string pattern: substring
containment. -/
def strContains (hay needle : String) : Bool :=
  decide (needle.toList <:+: hay.toList)

/-- Model of Rust `str::to_lowercase` (character-wise lowering; Rust's full
Unicode case mapping agrees with this on the ASCII data the tool handles). -/
def lowerStr (s : String) : String :=
  String.mk (s.toList.map Char.toLower)

/-- Splitting a character list at every comma, as Rust `str::split(',')`:
the empty input yields one empty piece. -/
def splitComma : List Char → List (List Char)
  | [] => [[]]
  | c :: cs =>
    if c = ',' then [] :: splitComma cs
    else
      match splitComma cs with
      | [] => [[c]]
      | h :: t => (c :: h) :: t

/-- Model of Rust `str::trim`: drop whitespace from both ends. -/
def trimChars (cs : List Char) : List Char :=
  ((cs.dropWhile Char.isWhitespace).reverse.dropWhile Char.isWhitespace).reverse

/-- Model of `s.split(',').map(|s| s.trim()).collect()` from `main`
(lines 50-58): how a caller-supplied comma-separated override string is
turned into the ignored-keyword / ignored-id list. -/
def parse_comma_list (s : String) : List String :=
  (splitComma s.toList).map (fun cs => String.mk (trimChars cs))

/-- Default `DEFAULT_SKIP_KEYWORDS` constant (main.rs lines 8-16). -/
def DEFAULT_SKIP_KEYWORDS : List String :=
  ["Proton", "Steam Linux Runtime", "Steamworks", "Common Redistributables",
   "SteamVR", "Dedicated Server", "Soundtrack"]

/-- Default `DEFAULT_IGNORED_APP_IDS` constant (main.rs line 18). -/
def DEFAULT_IGNORED_APP_IDS : List String := ["480"]

/-- Record produced by the manifest parser (`GameInfo` in main.rs). -/
structure GameInfo where
  appid : String
  name : String
deriving DecidableEq, Repr

/-- Translation of `should_skip` (main.rs lines 226-244): suppress when the
appid is contained in the ignored-id list, or when the lower-cased name
contains some lower-cased ignored keyword. -/
def should_skip (name appid : String)
    (ignored_app_ids ignored_key_words : List String) : Bool :=
  let name_lower := lowerStr name
  if ignored_app_ids.contains appid then true
  else ignored_key_words.any (fun keyword => strContains name_lower (lowerStr keyword))

/-- Matching a literal character sequence at the head of the input,
returning the remainder on success. -/
def dropLit : List Char → List Char → Option (List Char)
  | [], cs => some cs
  | _ :: _, [] => none
  | p :: ps, c :: cs => if p = c then dropLit ps cs else none

/-- Matching the regex `"key"\s+"(V+)"` anchored at the head of the input,
where `V` is the character class `good`: the literal quoted key, one or
more whitespace characters, then a quoted non-empty run of `good`
characters. Greedy quantifiers followed by characters outside the repeated
class make the regex deterministic, so takeWhile/dropWhile captures its
semantics exactly. Returns the captured value and the remainder after the
whole match. -/
def matchKVAt (key : List Char) (good : Char → Bool) (cs : List Char) :
    Option (List Char × List Char) :=
  match dropLit ('"' :: key ++ ['"']) cs with
  | none => none
  | some rest =>
    let ws := rest.takeWhile Char.isWhitespace
    let rest2 := rest.dropWhile Char.isWhitespace
    if ws.isEmpty then none
    else
      match rest2 with
      | [] => none
      | c :: rest3 =>
        if c = '"' then
          let v := rest3.takeWhile good
          let rest4 := rest3.dropWhile good
          if v.isEmpty then none
          else
            match rest4 with
            | [] => none
            | c2 :: rest5 => if c2 = '"' then some (v, rest5) else none
        else none

/-- Leftmost-match search for `"key"\s+"(V+)"`, as `Regex::captures`: try
every starting position from the left, first success wins. -/
def findKV (key : List Char) (good : Char → Bool) : List Char → Option (List Char × List Char)
  | [] => matchKVAt key good []
  | c :: cs =>
    match matchKVAt key good (c :: cs) with
    | some r => some r
    | none => findKV key good cs

/-- Iterated non-overlapping leftmost matching, as `Regex::captures_iter`:
after a match, searching resumes at the end of the match. The fuel
argument (always called with more fuel than there are characters) makes
the recursion structural; every match consumes at least one character, so
the fuel never runs out on the actual calls. -/
def scanKV (key : List Char) (good : Char → Bool) : Nat → List Char → List (List Char)
  | 0, _ => []
  | fuel + 1, cs =>
    match findKV key good cs with
    | none => []
    | some (v, rest) => v :: scanKV key good fuel rest

/-- Translation of `parse_library_folders` (main.rs lines 190-203): collect
the capture of every `"path"\s+"([^"]+)"` match in the configuration
file's text. -/
def parse_library_folders (content : String) : List String :=
  (scanKV "path".toList (fun c => c != '"') (content.toList.length + 1) content.toList).map
    String.mk

/-- Translation of `parse_app_manifest` (main.rs lines 205-224) on the
manifest's text: the appid comes from the first `"appid"\s+"(\d+)"` match
and is required (`none` = the `Err` path); the name comes from the first
`"name"\s+"([^"]+)"` match and defaults to `"Unknown Game"`. -/
def parse_app_manifest (content : String) : Option GameInfo :=
  match findKV "appid".toList Char.isDigit content.toList with
  | none => none
  | some (idv, _) =>
    let name :=
      match findKV "name".toList (fun c => c != '"') content.toList with
      | some (nv, _) => String.mk nv
      | none => "Unknown Game"
    some ⟨String.mk idv, name⟩

/-- Declarative reading of "a `"key" "value"` field can be located in the
text": some position starts the quoted key, then one or more whitespace
characters, then a non-empty quoted run of characters of the value class. -/
def HasKVField (key : List Char) (good : Char → Bool) (cs : List Char) : Prop :=
  ∃ pre ws v rest,
    cs = pre ++ '"' :: key ++ '"' :: (ws ++ '"' :: (v ++ '"' :: rest))
    ∧ ws ≠ [] ∧ (∀ c ∈ ws, c.isWhitespace = true)
    ∧ v ≠ [] ∧ (∀ c ∈ v, good c = true)

/-- Directory state: maps a filename to the file's content, `none` when
the file does not exist. -/
def DirState : Type := String → Option String

/-- Creating/overwriting one file (`fs::File::create` + `write_all`). -/
def writeFile (filename content : String) (d : DirState) : DirState :=
  fun m => if m = filename then some content else d m

/-- Filename test used by the cleanup loop (main.rs lines 94-97):
starts with `"steam-"` and ends with `".desktop"`. -/
def isSteamEntry (filename : String) : Bool :=
  strStartsWith filename "steam-" && strEndsWith filename ".desktop"

/-- Cleanup pass over the output directory (main.rs lines 91-100): delete
every immediate entry matching `isSteamEntry`, keep everything else. -/
def cleanup (d : DirState) : DirState :=
  fun m => if isSteamEntry m then none else d m

/-- Content template of `create_desktop_file` (main.rs lines 246-261). -/
def desktop_file_content (game : GameInfo) (icon_path : String) : String :=
  "[Desktop Entry]\nName=" ++ game.name ++ "\nExec=steam steam://rungameid/" ++
    game.appid ++ "\nIcon=" ++ icon_path ++
    "\nTerminal=false\nType=Application\nCategories=Game;\n"

/-- Translation of `create_desktop_file` (main.rs lines 246-261): write the
templated content to the given filename, overwriting unconditionally. -/
def create_desktop_file (filename : String) (game : GameInfo) (icon_path : String)
    (d : DirState) : DirState :=
  writeFile filename (desktop_file_content game icon_path) d

/-- Icon-candidate filename test (main.rs line 150): length exactly 44 and
a `.jpg` suffix. Rust measures bytes; on the ASCII cache filenames this
equals the character count used here. -/
def good_icon (filename : String) : Bool :=
  filename.length == 44 && strEndsWith filename ".jpg"

/-- Search of the per-appid icon-cache listing (main.rs lines 141-152):
`read_dir(..).ok()` turns a missing or unreadable directory into an empty
iterator (`none` here models both), and `find` takes the first entry whose
filename passes `good_icon`. -/
def find_icon (listing : Option (List String)) : Option String :=
  (listing.getD []).find? good_icon

/-- Icon path resolution (main.rs lines 141-157): the found entry's full
path under the cache directory, or the literal fallback `"steam"`. -/
def resolve_icon (icon_cache_dir appid : String) (listing : Option (List String)) : String :=
  match find_icon listing with
  | some f => icon_cache_dir ++ "/" ++ appid ++ "/" ++ f
  | none => "steam"

/-- Manifest filename filter of the scanning loop (main.rs lines 128-130):
starts with `"appmanifest_"` and ends with `".acf"`. -/
def manifest_filename (filename : String) : Bool :=
  strStartsWith filename "appmanifest_" && strEndsWith filename ".acf"

/-- Read-only inputs of one run. `steamapps lib` is the `steamapps`
subdirectory of library root `lib`: `none` when it does not exist (the
library is silently skipped), `some (.error ())` when enumerating it fails
(the `?` on `read_dir` aborts the run), `some (.ok entries)` when it lists
the given `(filename, content)` entries — an entry's content is `none`
when reading that file fails, which makes `parse_app_manifest`'s `Err`
path fire inside the `if let Ok`. `iconDir appid` is the listing of the
per-appid icon-cache subdirectory, `none` when missing or unreadable. -/
structure World where
  vdfExists : Bool
  vdfContent : String
  steamapps : String → Option (Except Unit (List (String × Option String)))
  iconDir : String → Option (List String)

/-- Outcome of a run: `fatal` is any non-zero exit (missing configuration
file, or a propagated filesystem error), carrying the output directory's
state at that moment; `ok` carries the final state and the
created/skipped counters. -/
inductive RunResult where
  | fatal (d : DirState)
  | ok (d : DirState) (created skipped : Nat)

/-- Final output-directory state of a run, whether it completed or
aborted. -/
def RunResult.state : RunResult → DirState
  | .fatal d => d
  | .ok d _ _ => d

/-- Reported counters of a run: `none` when the run aborted. -/
def RunResult.counts : RunResult → Option (Nat × Nat)
  | .fatal _ => none
  | .ok _ c s => some (c, s)

/-- Per-entry half of the scanning loop (main.rs lines 123-169): filter on
the manifest filename pattern, parse (read or parse failure silently skips
the entry), classify, resolve the icon, and in non-dry-run mode emit the
desktop file; the counters accumulate. -/
def processEntries (dry_run : Bool) (ids kws : List String) (icon_cache_dir : String)
    (w : World) :
    List (String × Option String) → DirState → Nat → Nat → DirState × Nat × Nat
  | [], d, created, skipped => (d, created, skipped)
  | (filename, content) :: rest, d, created, skipped =>
    if manifest_filename filename then
      match content with
      | none => processEntries dry_run ids kws icon_cache_dir w rest d created skipped
      | some text =>
        match parse_app_manifest text with
        | none => processEntries dry_run ids kws icon_cache_dir w rest d created skipped
        | some game =>
          if should_skip game.name game.appid ids kws then
            processEntries dry_run ids kws icon_cache_dir w rest d created (skipped + 1)
          else
            let icon_path := resolve_icon icon_cache_dir game.appid (w.iconDir game.appid)
            let desktop_filename := "steam-" ++ game.appid ++ ".desktop"
            let d2 := if dry_run then d
                      else create_desktop_file desktop_filename game icon_path d
            processEntries dry_run ids kws icon_cache_dir w rest d2 (created + 1) skipped
    else processEntries dry_run ids kws icon_cache_dir w rest d created skipped

/-- Per-library half of the scanning loop (main.rs lines 113-171): a
library whose `steamapps` subdirectory does not exist is skipped; a
failing `read_dir` aborts the run (`.fatal`); otherwise its entries are
processed and scanning continues. -/
def processLibs (dry_run : Bool) (ids kws : List String) (icon_cache_dir : String)
    (w : World) : List String → DirState → Nat → Nat → RunResult
  | [], d, created, skipped => .ok d created skipped
  | lib :: rest, d, created, skipped =>
    match w.steamapps lib with
    | none => processLibs dry_run ids kws icon_cache_dir w rest d created skipped
    | some (.error _) => .fatal d
    | some (.ok entries) =>
      match processEntries dry_run ids kws icon_cache_dir w entries d created skipped with
      | (d2, c2, s2) => processLibs dry_run ids kws icon_cache_dir w rest d2 c2 s2

/-- Translation of `main` (main.rs lines 82-188) from the first
filesystem mutation on: in non-dry-run mode the cleanup pass runs first;
then the configuration file's existence is checked (missing means exit
code 1, i.e. `.fatal`); then the library roots are extracted and
scanned. -/
def runMain (dry_run : Bool) (ids kws : List String) (icon_cache_dir : String)
    (w : World) (d : DirState) : RunResult :=
  let d1 := if dry_run then d else cleanup d
  if !w.vdfExists then .fatal d1
  else
    processLibs dry_run ids kws icon_cache_dir w
      (parse_library_folders w.vdfContent) d1 0 0

/-- Applying a list of file writes in order. -/
def applyWrites : List (String × String) → DirState → DirState
  | [], d => d
  | (n, t) :: ws, d => applyWrites ws (writeFile n t d)

/-- Pure trace of `processEntries`: the emitted `(filename, content)`
writes in order, the created count and the skipped count — none of which
depend on the directory state. -/
def entriesTrace (ids kws : List String) (icon_cache_dir : String)
    (iconDir : String → Option (List String)) :
    List (String × Option String) → List (String × String) × Nat × Nat
  | [] => ([], 0, 0)
  | (filename, content) :: rest =>
    let r := entriesTrace ids kws icon_cache_dir iconDir rest
    if manifest_filename filename then
      match content with
      | none => r
      | some text =>
        match parse_app_manifest text with
        | none => r
        | some game =>
          if should_skip game.name game.appid ids kws then (r.1, r.2.1, r.2.2 + 1)
          else
            (("steam-" ++ game.appid ++ ".desktop",
              desktop_file_content game
                (resolve_icon icon_cache_dir game.appid (iconDir game.appid))) :: r.1,
             r.2.1 + 1, r.2.2)
    else r

/-- Pure trace of `processLibs`: accumulated writes, a completion flag
(`false` when some library's enumeration aborts the scan), and the
counters. -/
def libsTrace (ids kws : List String) (icon_cache_dir : String) (w : World) :
    List String → List (String × String) × Bool × Nat × Nat
  | [] => ([], true, 0, 0)
  | lib :: rest =>
    match w.steamapps lib with
    | none => libsTrace ids kws icon_cache_dir w rest
    | some (.error _) => ([], false, 0, 0)
    | some (.ok entries) =>
      let e := entriesTrace ids kws icon_cache_dir w.iconDir entries
      let r := libsTrace ids kws icon_cache_dir w rest
      (e.1 ++ r.1, r.2.1, e.2.1 + r.2.2.1, e.2.2 + r.2.2.2)

/-- Pure trace of a whole run: a missing configuration file contributes no
writes and no completion. -/
def runTrace (ids kws : List String) (icon_cache_dir : String) (w : World) :
    List (String × String) × Bool × Nat × Nat :=
  if w.vdfExists then
    libsTrace ids kws icon_cache_dir w (parse_library_folders w.vdfContent)
  else ([], false, 0, 0)

/-- Characterisation of `should_skip` as a disjunction: suppression happens
exactly on an exact id match or a case-insensitive keyword substring match. -/
theorem should_skip_eq_true_iff (name appid : String)
    (ids kws : List String) :
    should_skip name appid ids kws = true ↔
      appid ∈ ids ∨ ∃ k ∈ kws, (lowerStr k).toList <:+: (lowerStr name).toList := by
  unfold should_skip strContains
  simp only [List.any_eq_true, decide_eq_true_eq]
  by_cases h : appid ∈ ids
  · simp [h, List.elem_iff]
  · simp [h, List.elem_iff]

/-- Writes distribute over list append. -/
theorem applyWrites_append (xs ys : List (String × String)) (d : DirState) :
    applyWrites (xs ++ ys) d = applyWrites ys (applyWrites xs d) := by
  induction xs generalizing d with
  | nil => simp [applyWrites]
  | cons p xs ih => obtain ⟨n, t⟩ := p; simp [applyWrites, ih]

/-- Characterisation of `processEntries` by its pure trace: the final
state applies the trace's writes (none in dry-run mode) and the counters
grow by the trace's counts. -/
theorem processEntries_eq (dry_run : Bool) (ids kws : List String) (icd : String)
    (w : World) (entries : List (String × Option String)) (d : DirState)
    (created skipped : Nat) :
    processEntries dry_run ids kws icd w entries d created skipped =
      ((if dry_run then d else applyWrites (entriesTrace ids kws icd w.iconDir entries).1 d),
       created + (entriesTrace ids kws icd w.iconDir entries).2.1,
       skipped + (entriesTrace ids kws icd w.iconDir entries).2.2) := by
  induction entries generalizing d created skipped with
  | nil => simp [processEntries, entriesTrace, applyWrites]
  | cons e rest ih =>
    obtain ⟨filename, content⟩ := e
    simp only [processEntries, entriesTrace]
    by_cases hf : manifest_filename filename
    · simp only [hf, if_true]
      cases content with
      | none => simp [ih d created skipped]
      | some text =>
        cases hp : parse_app_manifest text with
        | none => simp [hp, ih d created skipped]
        | some game =>
          simp only [hp]
          by_cases hs : should_skip game.name game.appid ids kws
          · simp only [hs, if_true]
            rw [ih]
            refine Prod.ext rfl (Prod.ext ?_ ?_) <;> simp <;> omega
          · simp only [hs, if_false, Bool.false_eq_true]
            rw [ih]
            cases dry_run with
            | false =>
              simp only [if_false, Bool.false_eq_true]
              refine Prod.ext ?_ (Prod.ext ?_ ?_) <;>
                simp [applyWrites, create_desktop_file] <;> omega
            | true =>
              simp only [if_true]
              refine Prod.ext rfl (Prod.ext ?_ ?_) <;> simp <;> omega
    · simp [hf, ih d created skipped]

/-- Characterisation of `processLibs` by its pure trace. -/
theorem processLibs_eq (dry_run : Bool) (ids kws : List String) (icd : String)
    (w : World) (libs : List String) (d : DirState) (created skipped : Nat) :
    processLibs dry_run ids kws icd w libs d created skipped =
      (if (libsTrace ids kws icd w libs).2.1 then
        RunResult.ok
          (if dry_run then d else applyWrites (libsTrace ids kws icd w libs).1 d)
          (created + (libsTrace ids kws icd w libs).2.2.1)
          (skipped + (libsTrace ids kws icd w libs).2.2.2)
      else
        RunResult.fatal
          (if dry_run then d else applyWrites (libsTrace ids kws icd w libs).1 d)) := by
  induction libs generalizing d created skipped with
  | nil => simp [processLibs, libsTrace, applyWrites]
  | cons lib rest ih =>
    simp only [processLibs, libsTrace]
    cases hs : w.steamapps lib with
    | none => simp [hs, ih d created skipped]
    | some res =>
      cases res with
      | error e => cases dry_run <;> simp [hs, applyWrites]
      | ok entries =>
        simp only [hs]
        rw [processEntries_eq, ih]
        cases hc : (libsTrace ids kws icd w rest).2.1 <;>
          cases dry_run <;>
          simp [hc, applyWrites_append, RunResult.ok.injEq] <;>
          omega

/-- Characterisation of `runMain` by its pure trace: in non-dry-run mode
the final state is the trace's writes applied to the cleaned directory; in
dry-run mode the state is untouched; counters and fatality come from the
trace alone. -/
theorem runMain_eq (dry_run : Bool) (ids kws : List String) (icd : String)
    (w : World) (d : DirState) :
    runMain dry_run ids kws icd w d =
      (if (runTrace ids kws icd w).2.1 then
        RunResult.ok
          (if dry_run then d else applyWrites (runTrace ids kws icd w).1 (cleanup d))
          (runTrace ids kws icd w).2.2.1 (runTrace ids kws icd w).2.2.2
      else
        RunResult.fatal
          (if dry_run then d else applyWrites (runTrace ids kws icd w).1 (cleanup d))) := by
  unfold runMain runTrace
  cases hv : w.vdfExists with
  | false => cases dry_run <;> simp [applyWrites]
  | true =>
    simp only [Bool.not_true, if_true, Bool.false_eq_true, if_false]
    rw [processLibs_eq]
    cases dry_run <;> simp

/-- Generated shortcut filenames satisfy the cleanup pattern. -/
theorem isSteamEntry_generated (appid : String) :
    isSteamEntry ("steam-" ++ appid ++ ".desktop") = true := by
  unfold isSteamEntry strStartsWith strEndsWith
  rw [Bool.and_eq_true, List.isPrefixOf_iff_prefix, List.isSuffixOf_iff_suffix]
  simp only [String.toList, String.data_append]
  exact ⟨(List.prefix_append _ _).trans (List.prefix_append _ _),
    List.suffix_append _ _⟩

/-- Cleanup is idempotent. -/
theorem cleanup_cleanup (d : DirState) : cleanup (cleanup d) = cleanup d := by
  funext m
  unfold cleanup
  by_cases h : isSteamEntry m <;> simp [h]

/-- Cleanup cancels a write whose filename matches the cleanup pattern. -/
theorem cleanup_writeFile_steam (n t : String) (d : DirState)
    (h : isSteamEntry n = true) :
    cleanup (writeFile n t d) = cleanup d := by
  funext m
  unfold cleanup writeFile
  by_cases hm : isSteamEntry m
  · simp [hm]
  · have hmn : m ≠ n := by
      intro he
      rw [he] at hm
      exact hm h
    simp [hm, hmn]

/-- Cleanup cancels any sequence of writes whose filenames all match the
cleanup pattern. -/
theorem cleanup_applyWrites (ws : List (String × String)) (d : DirState)
    (h : ∀ p ∈ ws, isSteamEntry p.1 = true) :
    cleanup (applyWrites ws d) = cleanup d := by
  induction ws generalizing d with
  | nil => rfl
  | cons p ws ih =>
    obtain ⟨n, t⟩ := p
    simp only [applyWrites]
    rw [ih (writeFile n t d) (fun q hq => h q (List.mem_cons_of_mem _ hq)),
      cleanup_writeFile_steam n t d (h (n, t) (List.mem_cons_self _ _))]

/-- Every write in an entries trace bears a generated shortcut filename. -/
theorem entriesTrace_names (ids kws : List String) (icd : String)
    (iconDir : String → Option (List String))
    (entries : List (String × Option String)) :
    ∀ p ∈ (entriesTrace ids kws icd iconDir entries).1, isSteamEntry p.1 = true := by
  induction entries with
  | nil => simp [entriesTrace]
  | cons e rest ih =>
    obtain ⟨filename, content⟩ := e
    simp only [entriesTrace]
    by_cases hf : manifest_filename filename
    · simp only [hf, if_true]
      cases content with
      | none => simpa using ih
      | some text =>
        cases hp : parse_app_manifest text with
        | none => simpa [hp] using ih
        | some game =>
          simp only [hp]
          by_cases hs : should_skip game.name game.appid ids kws
          · simpa [hs] using ih
          · simp only [hs, Bool.false_eq_true, if_false]
            intro p hp2
            rcases List.mem_cons.mp hp2 with h1 | h2
            · rw [h1]
              exact isSteamEntry_generated game.appid
            · exact ih p h2
    · simpa [hf] using ih

/-- Every write in a libraries trace bears a generated shortcut filename. -/
theorem libsTrace_names (ids kws : List String) (icd : String) (w : World)
    (libs : List String) :
    ∀ p ∈ (libsTrace ids kws icd w libs).1, isSteamEntry p.1 = true := by
  induction libs with
  | nil => simp [libsTrace]
  | cons lib rest ih =>
    simp only [libsTrace]
    cases hs : w.steamapps lib with
    | none => exact ih
    | some res =>
      cases res with
      | error e => simp
      | ok entries =>
        simp only
        intro p hp
        rcases List.mem_append.mp hp with h1 | h2
        · exact entriesTrace_names ids kws icd w.iconDir entries p h1
        · exact ih p h2

/-- Every write in a run trace bears a generated shortcut filename. -/
theorem runTrace_names (ids kws : List String) (icd : String) (w : World) :
    ∀ p ∈ (runTrace ids kws icd w).1, isSteamEntry p.1 = true := by
  unfold runTrace
  by_cases hv : w.vdfExists = true
  · simpa [hv] using libsTrace_names ids kws icd w (parse_library_folders w.vdfContent)
  · simp [hv]

/-- C1: running the full non-dry-run reconciliation a second time with
unchanged inputs leaves the output directory byte-identical to the state
after the first run — whether the runs complete or abort at the same
point, the second run's cleanup removes exactly the files the first run
generated and the same writes are then re-applied. -/
theorem C1_theorem (ids kws : List String) (icd : String) (w : World) (d : DirState) :
    (runMain false ids kws icd w ((runMain false ids kws icd w d).state)).state =
      (runMain false ids kws icd w d).state := by
  have hstate : ∀ (c : Bool) (st : DirState) (a b : Nat),
      (if c then RunResult.ok st a b else RunResult.fatal st).state = st := by
    intro c st a b
    cases c <;> rfl
  rw [runMain_eq, runMain_eq, hstate, hstate]
  simp only [Bool.false_eq_true, if_false]
  rw [cleanup_applyWrites (runTrace ids kws icd w).1 (cleanup d) (runTrace_names ids kws icd w),
    cleanup_cleanup]

/-- C5: the cleanup pass deletes an entry exactly when its filename starts
with `"steam-"` and ends with `".desktop"`, and leaves the content of
every other entry untouched. -/
theorem C5_theorem (d : DirState) (n : String) :
    (("steam-".toList <+: n.toList ∧ ".desktop".toList <:+ n.toList) →
      cleanup d n = none)
    ∧ (¬ ("steam-".toList <+: n.toList ∧ ".desktop".toList <:+ n.toList) →
      cleanup d n = d n) := by
  unfold cleanup isSteamEntry strStartsWith strEndsWith
  constructor
  · intro h
    rw [if_pos]
    rw [Bool.and_eq_true, List.isPrefixOf_iff_prefix, List.isSuffixOf_iff_suffix]
    exact h
  · intro h
    rw [if_neg]
    rw [Bool.and_eq_true, List.isPrefixOf_iff_prefix, List.isSuffixOf_iff_suffix]
    exact h

/-- C5 (witness): in a directory holding `steam-123.desktop` and
`other.desktop`, cleanup removes the former and leaves the latter's
content unchanged. -/
theorem C5_witness :
    cleanup (fun _ => some "x") "steam-123.desktop" = none
    ∧ cleanup (fun _ => some "x") "other.desktop" = (fun (_ : String) => some "x") "other.desktop" :=
  ⟨(C5_theorem (fun _ => some "x") "steam-123.desktop").1 (by decide),
   (C5_theorem (fun _ => some "x") "other.desktop").2 (by decide)⟩

/-- C6: a dry run leaves the output directory untouched and reports
exactly the created/skipped counters of a non-dry-run pass over the same
inputs (both abort in the same situations, in which case neither reports
counters). -/
theorem C6_theorem (ids kws : List String) (icd : String) (w : World) (d : DirState) :
    (runMain true ids kws icd w d).state = d
    ∧ (runMain true ids kws icd w d).counts = (runMain false ids kws icd w d).counts := by
  rw [runMain_eq, runMain_eq]
  cases (runTrace ids kws icd w).2.1 <;>
    simp [RunResult.state, RunResult.counts]

/-- C9: in non-dry-run mode the cleanup mutations precede the
configuration-file existence check: when `libraryfolders.vdf` is missing
the run aborts with a non-zero exit, and the output directory is left in
the cleaned state — the deletions are not rolled back. -/
theorem C9_theorem (ids kws : List String) (icd : String) (w : World) (d : DirState)
    (h : w.vdfExists = false) :
    runMain false ids kws icd w d = RunResult.fatal (cleanup d) := by
  unfold runMain
  rw [h]
  rfl

/-- C9 (witness): concrete world with no configuration file — the run
aborts and the state is the cleaned directory. -/
theorem C9_witness :
    runMain false [] [] "" ⟨false, "", fun _ => none, fun _ => none⟩ (fun _ => some "x") =
      RunResult.fatal (cleanup (fun _ => some "x")) :=
  C9_theorem [] [] "" ⟨false, "", fun _ => none, fun _ => none⟩ (fun _ => some "x") rfl

/-- Infix containment is preserved by appending on the right. -/
theorem infix_append_right {a b : List Char} (c : List Char) (h : a <:+: b) :
    a <:+: b ++ c := by
  obtain ⟨s, t, rfl⟩ := h
  exact ⟨s, t ++ c, by simp⟩

/-- Infix containment is preserved by appending on the left. -/
theorem infix_append_left {a b : List Char} (c : List Char) (h : a <:+: b) :
    a <:+: c ++ b := by
  obtain ⟨s, t, rfl⟩ := h
  exact ⟨c ++ s, t, by simp⟩

/-- C4: icon resolution returns the full path of the first listed entry
whose filename has exactly 44 characters and ends in `.jpg`; a missing or
unreadable per-identifier directory (`none`) or a listing with no such
entry yields the fallback token `"steam"` instead of an error. -/
theorem C4_theorem (icd appid : String) :
    resolve_icon icd appid none = "steam"
    ∧ (∀ files : List String, (∀ f ∈ files, good_icon f = false) →
        resolve_icon icd appid (some files) = "steam")
    ∧ (∀ (pre : List String) (f : String) (post : List String),
        (∀ g ∈ pre, good_icon g = false) → good_icon f = true →
        resolve_icon icd appid (some (pre ++ f :: post)) =
          icd ++ "/" ++ appid ++ "/" ++ f)
    ∧ (∀ f : String, good_icon f = true ↔
        f.length = 44 ∧ ".jpg".toList <:+ f.toList) := by
  refine ⟨rfl, ?_, ?_, ?_⟩
  · intro files h
    unfold resolve_icon find_icon
    rw [show (some files).getD [] = files from rfl,
      List.find?_eq_none.mpr (fun x hx => by simp [h x hx])]
  · intro pre f post hpre hf
    unfold resolve_icon find_icon
    rw [show (some (pre ++ f :: post)).getD [] = pre ++ f :: post from rfl,
      List.find?_append, List.find?_eq_none.mpr (fun x hx => by simp [hpre x hx]),
      List.find?_cons_of_pos _ hf]
    rfl
  · intro f
    unfold good_icon strEndsWith
    rw [Bool.and_eq_true, beq_iff_eq, List.isSuffixOf_iff_suffix]

/-- C4 (witness): with the listing `["notes.txt", <44-char .jpg name>]`
the resolver returns the cache path of the `.jpg` entry; the `.txt` entry
fails the shape test and the `.jpg` entry passes it. -/
theorem C4_witness :
    resolve_icon "cache" "100"
        (some ["notes.txt", "abcdefghijabcdefghijabcdefghijabcdefghij.jpg"]) =
      "cache" ++ "/" ++ "100" ++ "/" ++ "abcdefghijabcdefghijabcdefghijabcdefghij.jpg"
    ∧ good_icon "notes.txt" = false
    ∧ good_icon "abcdefghijabcdefghijabcdefghijabcdefghij.jpg" = true := by
  refine ⟨?_, by decide, by decide⟩
  have h0 := C4_theorem "cache" "100"
  have h := h0.2.2.1 ["notes.txt"]
    "abcdefghijabcdefghijabcdefghijabcdefghij.jpg" []
    (by decide) (by decide)
  simpa using h

/-- C7: for an accepted record the generation step writes exactly one
file, named `steam-<appid>.desktop`: the directory state changes only at
that name, the written content is the fixed template, any previous content
at that name is replaced unconditionally, and the template contains the
display name, the launch URI `steam://rungameid/<appid>`, the icon
reference, and the constant lines `Terminal=false`, `Type=Application`
and `Categories=Game;`. -/
theorem C7_theorem (ids kws : List String) (icd : String) (w : World)
    (fname text : String) (game : GameInfo) (d : DirState) (created skipped : Nat)
    (hf : manifest_filename fname = true)
    (hp : parse_app_manifest text = some game)
    (hs : should_skip game.name game.appid ids kws = false) :
    processEntries false ids kws icd w [(fname, some text)] d created skipped =
      (writeFile ("steam-" ++ game.appid ++ ".desktop")
        (desktop_file_content game (resolve_icon icd game.appid (w.iconDir game.appid))) d,
       created + 1, skipped)
    ∧ (∀ (e : DirState) (t : String) (m : String), m ≠ "steam-" ++ game.appid ++ ".desktop" →
        writeFile ("steam-" ++ game.appid ++ ".desktop") t e m = e m)
    ∧ (∀ (e : DirState) (t : String),
        writeFile ("steam-" ++ game.appid ++ ".desktop") t e
          ("steam-" ++ game.appid ++ ".desktop") = some t)
    ∧ (∀ icon_path : String,
        strContains (desktop_file_content game icon_path) ("Name=" ++ game.name) = true
        ∧ strContains (desktop_file_content game icon_path)
            ("steam://rungameid/" ++ game.appid) = true
        ∧ strContains (desktop_file_content game icon_path) ("Icon=" ++ icon_path) = true
        ∧ strContains (desktop_file_content game icon_path) "Terminal=false" = true
        ∧ strContains (desktop_file_content game icon_path) "Type=Application" = true
        ∧ strContains (desktop_file_content game icon_path) "Categories=Game;" = true) := by
  refine ⟨?_, ?_, ?_, ?_⟩
  · simp [processEntries, hf, hp, hs, create_desktop_file]
  · intro e t m hm
    simp [writeFile, hm]
  · intro e t
    simp [writeFile]
  · intro icon_path
    unfold strContains desktop_file_content
    refine ⟨?_, ?_, ?_, ?_, ?_, ?_⟩ <;> rw [decide_eq_true_eq]
    · rw [show ("[Desktop Entry]\nName=" : String) = "[Desktop Entry]\n" ++ "Name=" from rfl]
      simp only [String.toList, String.data_append, List.append_assoc]
      apply infix_append_left
      rw [← List.append_assoc]
      exact infix_append_right _ (List.infix_refl _)
    · rw [show ("\nExec=steam steam://rungameid/" : String) =
          "\nExec=steam " ++ "steam://rungameid/" from rfl]
      simp only [String.toList, String.data_append, List.append_assoc]
      apply infix_append_left
      apply infix_append_left
      apply infix_append_left
      rw [← List.append_assoc]
      exact infix_append_right _ (List.infix_refl _)
    · rw [show ("\nIcon=" : String) = "\n" ++ "Icon=" from rfl]
      simp only [String.toList, String.data_append, List.append_assoc]
      apply infix_append_left
      apply infix_append_left
      apply infix_append_left
      apply infix_append_left
      apply infix_append_left
      rw [← List.append_assoc]
      exact infix_append_right _ (List.infix_refl _)
    · simp only [String.toList, String.data_append, List.append_assoc]
      apply infix_append_left
      apply infix_append_left
      apply infix_append_left
      apply infix_append_left
      apply infix_append_left
      apply infix_append_left
      decide
    · simp only [String.toList, String.data_append, List.append_assoc]
      apply infix_append_left
      apply infix_append_left
      apply infix_append_left
      apply infix_append_left
      apply infix_append_left
      apply infix_append_left
      decide
    · simp only [String.toList, String.data_append, List.append_assoc]
      apply infix_append_left
      apply infix_append_left
      apply infix_append_left
      apply infix_append_left
      apply infix_append_left
      apply infix_append_left
      decide

/-- C7 (witness): concrete accepted record `("Cool Game", "100")` parsed
from a concrete manifest, processed in non-dry-run mode with an empty
icon cache. -/
theorem C7_witness :
    processEntries false [] [] "cache"
        ⟨true, "", fun _ => none, fun _ => none⟩
        [("appmanifest_100.acf", some "\x22appid\x22 \x22100\x22\n\x22name\x22 \x22Cool Game\x22")]
        (fun _ => none) 0 0 =
      (writeFile ("steam-" ++ "100" ++ ".desktop")
        (desktop_file_content ⟨"100", "Cool Game"⟩
          (resolve_icon "cache" "100" none)) (fun _ => none),
       0 + 1, 0)
    ∧ strContains (desktop_file_content ⟨"100", "Cool Game"⟩ "steam")
        ("steam://rungameid/" ++ "100") = true := by
  have h := C7_theorem [] [] "cache" ⟨true, "", fun _ => none, fun _ => none⟩
    "appmanifest_100.acf" "\x22appid\x22 \x22100\x22\n\x22name\x22 \x22Cool Game\x22"
    ⟨"100", "Cool Game"⟩ (fun _ => none) 0 0 (by decide) (by decide) (by decide)
  exact ⟨h.1, (h.2.2.2 "steam").2.1⟩

/-- Scanning is aborted when some listed library's `steamapps`
enumeration fails. -/
theorem libsTrace_not_completed (ids kws : List String) (icd : String) (w : World)
    (libs : List String) (lib : String) (hmem : lib ∈ libs)
    (herr : w.steamapps lib = some (Except.error ())) :
    (libsTrace ids kws icd w libs).2.1 = false := by
  induction libs with
  | nil => cases hmem
  | cons l rest ih =>
    simp only [libsTrace]
    cases hsl : w.steamapps l with
    | none =>
      rcases List.mem_cons.mp hmem with h1 | h2
      · rw [h1, hsl] at herr
        cases herr
      · exact ih h2
    | some res =>
      cases res with
      | error e => rfl
      | ok entries =>
        rcases List.mem_cons.mp hmem with h1 | h2
        · rw [h1, hsl] at herr
          cases herr
        · exact ih h2

/-- Scanning completes when no library's `steamapps` enumeration fails. -/
theorem libsTrace_completed (ids kws : List String) (icd : String) (w : World)
    (libs : List String)
    (h : ∀ lib, w.steamapps lib ≠ some (Except.error ())) :
    (libsTrace ids kws icd w libs).2.1 = true := by
  induction libs with
  | nil => rfl
  | cons l rest ih =>
    simp only [libsTrace]
    cases hsl : w.steamapps l with
    | none => exact ih
    | some res =>
      cases res with
      | error e =>
        cases e
        exact absurd hsl (h l)
      | ok entries => exact ih

/-- C8 (counterexample): a run in which the per-identifier icon-cache
enumeration fails (`iconDir` returns `none` for the only discovered
appid `"100"`) does not abort: it completes with one shortcut created and
zero skipped, refuting the claim that icon-cache read errors are fatal. -/
theorem C8_counterexample :
    (runMain false DEFAULT_IGNORED_APP_IDS DEFAULT_SKIP_KEYWORDS "cache"
        ⟨true, "\x22path\x22 \x22lib1\x22",
         fun p => if p = "lib1" then
             some (Except.ok [("appmanifest_100.acf", some "\x22appid\x22 \x22100\x22")])
           else none,
         fun _ => none⟩
        (fun _ => none)).counts = some (1, 0)
    ∧ (World.iconDir
        ⟨true, "\x22path\x22 \x22lib1\x22",
         fun p => if p = "lib1" then
             some (Except.ok [("appmanifest_100.acf", some "\x22appid\x22 \x22100\x22")])
           else none,
         fun _ => none⟩) "100" = none := by
  constructor
  · rfl
  · rfl

/-- C8 (amended): an I/O error enumerating a discovered library's
`steamapps` directory is fatal and aborts the entire run; but an error
enumerating the per-identifier icon cache directory is not — the resolver
treats it exactly like a missing directory, substitutes the fallback token
`"steam"`, and the run completes whenever the configuration file exists
and no `steamapps` enumeration fails, whatever the icon cache does. -/
theorem C8_theorem (dry_run : Bool) (ids kws : List String) (icd : String)
    (w : World) (d : DirState) :
    (∀ lib ∈ parse_library_folders w.vdfContent,
        w.steamapps lib = some (Except.error ()) → w.vdfExists = true →
        ∃ d2, runMain dry_run ids kws icd w d = RunResult.fatal d2)
    ∧ ((∀ lib, w.steamapps lib ≠ some (Except.error ())) → w.vdfExists = true →
        ∃ d2 c s, runMain dry_run ids kws icd w d = RunResult.ok d2 c s)
    ∧ (∀ appid : String, resolve_icon icd appid none = "steam") := by
  refine ⟨?_, ?_, fun _ => rfl⟩
  · intro lib hmem herr hv
    rw [runMain_eq]
    have hc : (runTrace ids kws icd w).2.1 = false := by
      unfold runTrace
      rw [hv, if_pos rfl]
      exact libsTrace_not_completed ids kws icd w _ lib hmem herr
    rw [hc]
    exact ⟨_, rfl⟩
  · intro herr hv
    rw [runMain_eq]
    have hc : (runTrace ids kws icd w).2.1 = true := by
      unfold runTrace
      rw [hv, if_pos rfl]
      exact libsTrace_completed ids kws icd w _ herr
    rw [hc]
    exact ⟨_, _, _, rfl⟩

/-- C8 (witness): concrete instances of both halves of `C8_theorem` — a
world whose single library fails enumeration aborts; a world whose single
library enumerates cleanly completes (with an icon cache that always
fails). -/
theorem C8_witness :
    (∃ d2, runMain false [] [] "cache"
        ⟨true, "\x22path\x22 \x22lib1\x22", fun _ => some (Except.error ()), fun _ => none⟩
        (fun _ => none) = RunResult.fatal d2)
    ∧ (∃ d2 c s, runMain false [] [] "cache"
        ⟨true, "\x22path\x22 \x22lib1\x22",
         fun p => if p = "lib1" then
             some (Except.ok [("appmanifest_100.acf", some "\x22appid\x22 \x22100\x22")])
           else none,
         fun _ => none⟩
        (fun _ => none) = RunResult.ok d2 c s) := by
  constructor
  · exact (C8_theorem false [] [] "cache"
      ⟨true, "\x22path\x22 \x22lib1\x22", fun _ => some (Except.error ()), fun _ => none⟩
      (fun _ => none)).1 "lib1" (by decide) rfl rfl
  · refine (C8_theorem false [] [] "cache" _ (fun _ => none)).2.1 ?_ rfl
    intro lib
    by_cases h : lib = "lib1" <;> simp [h]

/-- A successful literal match decomposes the input. -/
theorem dropLit_eq_some (p : List Char) (cs r : List Char)
    (h : dropLit p cs = some r) : cs = p ++ r := by
  induction p generalizing cs with
  | nil =>
    simp only [dropLit, Option.some.injEq] at h
    simp [h]
  | cons x p ih =>
    cases cs with
    | nil => cases h
    | cons c cs =>
      unfold dropLit at h
      by_cases hx : x = c
      · rw [if_pos hx] at h
        subst hx
        rw [List.cons_append, ih cs h]
      · rw [if_neg hx] at h
        cases h

/-- The literal matcher accepts its own literal. -/
theorem dropLit_self (p r : List Char) : dropLit p (p ++ r) = some r := by
  induction p with
  | nil => rfl
  | cons x p ih => simp [dropLit, ih]

/-- takeWhile stops exactly at the first failing element. -/
theorem takeWhile_middle (p : Char → Bool) (xs : List Char) (y : Char) (ys : List Char)
    (h1 : ∀ c ∈ xs, p c = true) (h2 : p y = false) :
    (xs ++ y :: ys).takeWhile p = xs := by
  induction xs with
  | nil => simp [List.takeWhile_cons, h2]
  | cons x xs ih =>
    rw [List.cons_append, List.takeWhile_cons, if_pos (h1 x (List.mem_cons_self _ _)),
      ih (fun c hc => h1 c (List.mem_cons_of_mem _ hc))]

/-- dropWhile drops exactly up to the first failing element. -/
theorem dropWhile_middle (p : Char → Bool) (xs : List Char) (y : Char) (ys : List Char)
    (h1 : ∀ c ∈ xs, p c = true) (h2 : p y = false) :
    (xs ++ y :: ys).dropWhile p = y :: ys := by
  induction xs with
  | nil => simp [List.dropWhile_cons, h2]
  | cons x xs ih =>
    rw [List.cons_append, List.dropWhile_cons, if_pos (h1 x (List.mem_cons_self _ _)),
      ih (fun c hc => h1 c (List.mem_cons_of_mem _ hc))]

/-- Soundness of the anchored matcher: a successful match exhibits the
key/value decomposition of the input. -/
theorem matchKVAt_sound (key : List Char) (good : Char → Bool) (cs v r : List Char)
    (h : matchKVAt key good cs = some (v, r)) :
    ∃ ws, cs = '"' :: key ++ '"' :: (ws ++ '"' :: (v ++ '"' :: r))
      ∧ ws ≠ [] ∧ (∀ c ∈ ws, c.isWhitespace = true)
      ∧ v ≠ [] ∧ (∀ c ∈ v, good c = true) := by
  unfold matchKVAt at h
  cases hd : dropLit ('"' :: key ++ ['"']) cs with
  | none =>
    rw [hd] at h
    cases h
  | some rest =>
    rw [hd] at h
    dsimp only at h
    by_cases hw : (rest.takeWhile Char.isWhitespace).isEmpty = true
    · rw [if_pos hw] at h
      cases h
    · rw [if_neg hw] at h
      cases hr2 : rest.dropWhile Char.isWhitespace with
      | nil =>
        rw [hr2] at h
        cases h
      | cons c rest3 =>
        rw [hr2] at h
        dsimp only at h
        by_cases hc : c = '"'
        case neg =>
          rw [if_neg hc] at h
          cases h
        case pos =>
          subst hc
          rw [if_pos rfl] at h
          by_cases hv0 : (rest3.takeWhile good).isEmpty = true
          · rw [if_pos hv0] at h
            cases h
          · rw [if_neg hv0] at h
            cases hr4 : rest3.dropWhile good with
            | nil =>
              rw [hr4] at h
              cases h
            | cons c2 rest5 =>
              rw [hr4] at h
              dsimp only at h
              by_cases hc2 : c2 = '"'
              case neg =>
                rw [if_neg hc2] at h
                cases h
              case pos =>
                subst hc2
                rw [if_pos rfl] at h
                simp only [Option.some.injEq, Prod.mk.injEq] at h
                obtain ⟨hv1, hr1⟩ := h
                subst hv1
                subst hr1
                set TW := rest.takeWhile Char.isWhitespace with hTW
                set TG := rest3.takeWhile good with hTG
                have hcs : cs = ('"' :: key ++ ['"']) ++ rest :=
                  dropLit_eq_some ('"' :: key ++ ['"']) cs rest hd
                have hrest : rest = TW ++ ('"' :: rest3) := by
                  rw [hTW, ← hr2, List.takeWhile_append_dropWhile]
                have hrest3 : rest3 = TG ++ ('"' :: rest5) := by
                  rw [hTG, ← hr4, List.takeWhile_append_dropWhile]
                refine ⟨TW, ?_, ?_, ?_, ?_, ?_⟩
                · rw [hcs, hrest, hrest3]
                  simp [List.append_assoc]
                · simpa [List.isEmpty_iff] using hw
                · intro c hc
                  exact List.mem_takeWhile_imp hc
                · simpa [List.isEmpty_iff] using hv0
                · intro c hc
                  exact List.mem_takeWhile_imp hc

/-- Completeness of the anchored matcher: on an input that starts with a
well-formed key/value field (for a value class rejecting the quote
character) the matcher succeeds and captures the value. -/
theorem matchKVAt_complete (key : List Char) (good : Char → Bool)
    (ws v rest : List Char) (hg : good '"' = false)
    (hws : ws ≠ []) (hwsp : ∀ c ∈ ws, c.isWhitespace = true)
    (hv : v ≠ []) (hvp : ∀ c ∈ v, good c = true) :
    matchKVAt key good ('"' :: key ++ '"' :: (ws ++ '"' :: (v ++ '"' :: rest))) =
      some (v, rest) := by
  unfold matchKVAt
  have he : ('"' :: key ++ '"' :: (ws ++ '"' :: (v ++ '"' :: rest)) : List Char) =
      ('"' :: key ++ ['"']) ++ (ws ++ '"' :: (v ++ '"' :: rest)) := by
    simp
  rw [he, dropLit_self]
  dsimp only
  rw [takeWhile_middle Char.isWhitespace ws '"' _ hwsp (by decide),
    dropWhile_middle Char.isWhitespace ws '"' _ hwsp (by decide)]
  rw [if_neg (by simpa [List.isEmpty_iff] using hws)]
  dsimp only
  rw [if_pos rfl]
  rw [takeWhile_middle good v '"' _ hvp hg, dropWhile_middle good v '"' _ hvp hg]
  rw [if_neg (by simpa [List.isEmpty_iff] using hv)]
  dsimp only
  rw [if_pos rfl]

/-- Soundness of the leftmost search: success means a well-formed field is
present somewhere in the input. -/
theorem findKV_isSome_sound (key : List Char) (good : Char → Bool) (cs : List Char)
    (h : (findKV key good cs).isSome = true) : HasKVField key good cs := by
  induction cs with
  | nil =>
    unfold findKV at h
    cases hm : matchKVAt key good [] with
    | none =>
      rw [hm] at h
      cases h
    | some p =>
      obtain ⟨v, r⟩ := p
      obtain ⟨ws, heq, h1, h2, h3, h4⟩ := matchKVAt_sound key good [] v r hm
      exact ⟨[], ws, v, r, by simpa using heq, h1, h2, h3, h4⟩
  | cons c cs ih =>
    unfold findKV at h
    cases hm : matchKVAt key good (c :: cs) with
    | some p =>
      obtain ⟨v, r⟩ := p
      obtain ⟨ws, heq, h1, h2, h3, h4⟩ := matchKVAt_sound key good (c :: cs) v r hm
      exact ⟨[], ws, v, r, by simpa using heq, h1, h2, h3, h4⟩
    | none =>
      rw [hm] at h
      simp only at h
      obtain ⟨pre, ws, v, r, heq, h1, h2, h3, h4⟩ := ih h
      exact ⟨c :: pre, ws, v, r, by rw [heq]; simp, h1, h2, h3, h4⟩

/-- Completeness of the leftmost search: if a well-formed field is present
anywhere (for a value class rejecting the quote character), the search
succeeds. -/
theorem findKV_isSome_complete (key : List Char) (good : Char → Bool) (cs : List Char)
    (hg : good '"' = false) (h : HasKVField key good cs) :
    (findKV key good cs).isSome = true := by
  obtain ⟨pre, ws, v, rest, heq, hws, hwsp, hv, hvp⟩ := h
  subst heq
  induction pre with
  | nil =>
    have hm := matchKVAt_complete key good ws v rest hg hws hwsp hv hvp
    simp only [List.cons_append] at hm ⊢
    simp [findKV, hm]
  | cons c pre ih =>
    simp only [List.cons_append]
    cases hm : matchKVAt key good
        (c :: ((pre ++ '"' :: key) ++ '"' :: (ws ++ '"' :: (v ++ '"' :: rest)))) with
    | some p =>
      simp only [List.append_assoc, List.cons_append] at hm
      simp [findKV, hm]
    | none =>
      simp only [List.append_assoc, List.cons_append] at hm
      simp only [findKV, List.append_assoc, List.cons_append, hm]
      simpa using ih

/-- A failed search means no well-formed field is present. -/
theorem not_hasKV_of_findKV_eq_none (key : List Char) (good : Char → Bool)
    (cs : List Char) (hg : good '"' = false) (h : findKV key good cs = none) :
    ¬ HasKVField key good cs := by
  intro hk
  have hs := findKV_isSome_complete key good cs hg hk
  rw [h] at hs
  cases hs

/-- C3: the manifest parser fails exactly when no `"appid" "<digits>"`
field can be located in the manifest text; when an appid is found but no
`"name" "<text>"` field can be located, the produced record's name is the
placeholder `"Unknown Game"` (and this is a successful parse); and the
orchestrator reacts to a parse failure by skipping that single entry,
leaving the directory state and both counters unchanged and continuing the
scan — a parse failure never aborts the run. -/
theorem C3_theorem (dry_run : Bool) (ids kws : List String) (icd : String) (w : World) :
    (∀ content : String,
        parse_app_manifest content = none ↔
          ¬ HasKVField "appid".toList Char.isDigit content.toList)
    ∧ (∀ (content : String) (game : GameInfo), parse_app_manifest content = some game →
        ¬ HasKVField "name".toList (fun c => c != '"') content.toList →
        game.name = "Unknown Game")
    ∧ (∀ (fname text : String) (rest : List (String × Option String))
        (d : DirState) (c s : Nat),
        manifest_filename fname = true →
        parse_app_manifest text = none →
        processEntries dry_run ids kws icd w ((fname, some text) :: rest) d c s =
          processEntries dry_run ids kws icd w rest d c s) := by
  refine ⟨?_, ?_, ?_⟩
  · intro content
    unfold parse_app_manifest
    cases hf : findKV "appid".toList Char.isDigit content.toList with
    | none =>
      simp only
      constructor
      · intro _
        exact not_hasKV_of_findKV_eq_none _ _ _ (by decide) hf
      · intro _
        trivial
    | some p =>
      obtain ⟨idv, r⟩ := p
      simp only
      constructor
      · intro hcon
        cases hcon
      · intro hn
        exact absurd (findKV_isSome_sound _ _ _ (by rw [hf]; rfl)) hn
  · intro content game hp hn
    unfold parse_app_manifest at hp
    cases hf : findKV "appid".toList Char.isDigit content.toList with
    | none =>
      rw [hf] at hp
      cases hp
    | some p =>
      obtain ⟨idv, r⟩ := p
      rw [hf] at hp
      simp only at hp
      cases hfn : findKV "name".toList (fun c => c != '"') content.toList with
      | some q =>
        exact absurd (findKV_isSome_sound _ _ _ (by rw [hfn]; rfl)) hn
      | none =>
        rw [hfn] at hp
        simp only [Option.some.injEq] at hp
        rw [← hp]
  · intro fname text rest d c s hf hp
    simp [processEntries, hf, hp]

/-- C3 (witness): concrete instances — a manifest with no appid field
fails to parse; a manifest with an appid but no name field parses with the
placeholder name; and an unparsable manifest entry is skipped by the
scanning loop with state and counters untouched. -/
theorem C3_witness :
    parse_app_manifest "no fields here" = none
    ∧ GameInfo.name ⟨"42", "Unknown Game"⟩ = "Unknown Game"
    ∧ processEntries false [] [] "cache" ⟨true, "", fun _ => none, fun _ => none⟩
        [("appmanifest_9.acf", some "junk")] (fun _ => none) 0 0 =
      processEntries false [] [] "cache" ⟨true, "", fun _ => none, fun _ => none⟩
        [] (fun _ => none) 0 0 := by
  refine ⟨?_, ?_, ?_⟩
  · exact (C3_theorem false [] [] "cache" ⟨true, "", fun _ => none, fun _ => none⟩).1
      "no fields here" |>.mpr
      (not_hasKV_of_findKV_eq_none _ _ _ (by decide) (by decide))
  · exact (C3_theorem false [] [] "cache" ⟨true, "", fun _ => none, fun _ => none⟩).2.1
      "\x22appid\x22 \x2242\x22" ⟨"42", "Unknown Game"⟩ (by decide)
      (not_hasKV_of_findKV_eq_none _ _ _ (by decide) (by decide))
  · exact (C3_theorem false [] [] "cache" ⟨true, "", fun _ => none, fun _ => none⟩).2.2
      "appmanifest_9.acf" "junk" [] (fun _ => none) 0 0 (by decide) (by decide)

/-- C2 (counterexample): with an empty ignored-id list and an empty
keyword list, `should_skip "Normal Game" "480" {} {}` accepts (returns
`false`), contradicting the claim's assertion that it suppresses: the id
check is an exact membership test against the supplied list, and the
empty list contains nothing. -/
theorem C2_counterexample :
    should_skip "Normal Game" "480" [] [] = false := by decide

/-- C2 (amended): `should_skip` suppresses a record iff the id is exactly
a member of the ignored-id list, or the lower-cased name contains some
lower-cased ignored keyword as a substring. `"My Soundtrack Vol 1"/"999"`
with keyword `"Soundtrack"` is suppressed; `"Normal Game"/"480"` is
suppressed under the default ignored-id list `{"480"}` but accepted when
both lists are empty; `"Normal Game"/"481"` with empty lists is
accepted. -/
theorem C2_theorem :
    (∀ (name appid : String) (ids kws : List String),
      should_skip name appid ids kws = true ↔
        appid ∈ ids ∨ ∃ k ∈ kws, (lowerStr k).toList <:+: (lowerStr name).toList)
    ∧ should_skip "My Soundtrack Vol 1" "999" [] ["Soundtrack"] = true
    ∧ should_skip "Normal Game" "480" DEFAULT_IGNORED_APP_IDS [] = true
    ∧ should_skip "Normal Game" "480" [] [] = false
    ∧ should_skip "Normal Game" "481" [] [] = false :=
  ⟨should_skip_eq_true_iff, by decide, by decide, by decide, by decide⟩

/-- C10: when the ignored-keyword list contains the empty string — as
produced by an empty caller override, which `parse_comma_list` splits into
the single element `""` — `should_skip` suppresses every record, because
the empty string is a substring of every lower-cased name. -/
theorem C10_theorem (name appid : String) (ids kws : List String)
    (h : "" ∈ kws) :
    should_skip name appid ids kws = true ∧ parse_comma_list "" = [""] := by
  constructor
  · rw [should_skip_eq_true_iff]
    exact Or.inr ⟨"", h, List.nil_infix⟩
  · rfl

/-- C10 (witness): concrete instance of `C10_theorem` at the record
`("Normal Game", "481")` with the keyword list produced from the empty
override string. -/
theorem C10_witness :
    should_skip "Normal Game" "481" [] (parse_comma_list "") = true
    ∧ parse_comma_list "" = [""] :=
  C10_theorem "Normal Game" "481" [] (parse_comma_list "") (by decide)

end Steamer
